import Mathlib

/-!
Verification development for a QR-code extraction pipeline.

The source program is a TypeScript web worker (`src/services/qrWorker.ts`)
consisting of three layers:
  * a preprocessing toolkit (binarization methods, pixel-buffer transforms),
  * a detection engine (a scan-and-clear decode loop and four strategies,
    whose merged results form `findAllQrCodesInImageData`),
  * a task scheduler (a priority queue drained one task at a time,
    emitting result / progress / complete / error events).

Pixel buffers (`ImageData` with `Uint8ClampedArray` backing) are modelled as a
width, a height and a list of natural-number byte samples (RGBA, row-major).
JavaScript floating-point arithmetic is idealized as exact rational
arithmetic; luminance values are rationals.  External operations that the
worker delegates to the browser or to the `jsQR` library (bitmap decoding,
canvas resampling, quadrilateral painting, the decode-and-locate primitive)
and pixel transforms built on transcendental math (`Math.exp`-based Gaussian
kernels) are abstracted as parameters of an environment record; everything
else is translated directly from the source.
-/

/-- A pixel buffer: `width`, `height`, and the flat RGBA byte array
(`Uint8ClampedArray` samples as naturals, 4 bytes per pixel, row-major). -/
structure Img where
  width : Nat
  height : Nat
  data : List Nat
deriving DecidableEq, Repr

/-- Luminance of the pixel at `(x, y)`:
`0.299 * R + 0.587 * G + 0.114 * B`, read from the flat RGBA array.
Out-of-range reads yield 0 (the model's counterpart of absent samples). -/
def lum (img : Img) (x y : Nat) : ℚ :=
  let idx := (y * img.width + x) * 4
  (299 / 1000 : ℚ) * img.data.getD idx 0
    + (587 / 1000 : ℚ) * img.data.getD (idx + 1) 0
    + (114 / 1000 : ℚ) * img.data.getD (idx + 2) 0

/-- `Math.round` on a nonnegative rational: round half away from zero. -/
def jsRound (q : ℚ) : ℤ := ⌊q + 1 / 2⌋

/-- `context.getImageData(0, 0, w, h)`: a fresh `w × h` buffer; pixels
outside the canvas read as transparent black. -/
def getImageDataRect (c : Img) (w h : Nat) : Img :=
  ⟨w, h, (List.range (4 * w * h)).map fun i =>
    let p := i / 4
    let x := p % w
    let y := p / w
    if x < c.width ∧ y < c.height then
      c.data.getD ((y * c.width + x) * 4 + i % 4) 0
    else 0⟩

/-- `context.putImageData(img, 0, 0)` on canvas `c`: overwrite the pixels of
`c` covered by `img`, leaving the rest of the backing store unchanged. -/
def putImageData (c : Img) (img : Img) : Img :=
  ⟨c.width, c.height, (List.range c.data.length).map fun i =>
    let p := i / 4
    let x := p % c.width
    let y := p / c.width
    if x < img.width ∧ y < img.height then
      img.data.getD ((y * img.width + x) * 4 + i % 4) 0
    else c.data.getD i 0⟩

/-- `new OffscreenCanvas(w, h)`: a transparent-black canvas. -/
def blankCanvas (w h : Nat) : Img :=
  ⟨w, h, List.replicate (4 * w * h) 0⟩

/-- A buffer is well formed when its backing array has exactly
`4 * width * height` samples (guaranteed for every real `ImageData`). -/
def Img.wf (img : Img) : Prop := img.data.length = 4 * img.width * img.height

/-! ### Integral image (`BinarizationMethods.adaptive`, first pass)

The source builds `integralImage[y * width + x]` row by row:
`I(x, y) = lum(x, y) + I(x-1, y) + I(x, y-1) - I(x-1, y-1)` with absent terms
dropped on the borders.  `integralRow` computes one row from the previous
row (the all-zero function standing for the absent row above row 0). -/

def integralRow (img : Img) (y : Nat) (prev : Nat → ℚ) : Nat → ℚ
  | 0 => lum img 0 y + prev 0
  | x + 1 => lum img (x + 1) y + integralRow img y prev x + prev (x + 1) - prev x

def integralRows (img : Img) : Nat → (Nat → ℚ)
  | 0 => integralRow img 0 (fun _ => 0)
  | y + 1 => integralRow img (y + 1) (integralRows img y)

/-- The integral-image entry at `(x, y)`. -/
def integral (img : Img) (x y : Nat) : ℚ := integralRows img y x

/-- Clamped window bounds of the second pass:
`x1 = max 0 (x - half)`, `x2 = min (width-1) (x + half)` and likewise for
`y` (natural subtraction is exactly `max 0` of the integer difference). -/
def winLo (coord half : Nat) : Nat := coord - half

def winHi (extent coord half : Nat) : Nat := min (extent - 1) (coord + half)

/-- The window sum exactly as the second pass assembles it from the four
integral-image corners (terms guarded by `x1 > 0` / `y1 > 0`). -/
def windowSumCode (img : Img) (x1 x2 y1 y2 : Nat) : ℚ :=
  integral img x2 y2
    - (if 0 < x1 then integral img (x1 - 1) y2 else 0)
    - (if 0 < y1 then integral img x2 (y1 - 1) else 0)
    + (if 0 < x1 ∧ 0 < y1 then integral img (x1 - 1) (y1 - 1) else 0)

/-- Output sample of `BinarizationMethods.adaptive` for the pixel at
`(x, y)`: binarize the luminance against `localMean * (1 - threshold)`,
where `localMean = sum / ((x2 - x1) * (y2 - y1))`. -/
def adaptiveValue (img : Img) (windowSize : Nat) (threshold : ℚ) (x y : Nat) : Nat :=
  let halfWindow := windowSize / 2
  let x1 := winLo x halfWindow
  let x2 := winHi img.width x halfWindow
  let y1 := winLo y halfWindow
  let y2 := winHi img.height y halfWindow
  let count : ℚ := ((x2 - x1) * (y2 - y1) : Nat)
  let s := windowSumCode img x1 x2 y1 y2
  let localMean := s / count
  if lum img x y > localMean * (1 - threshold) then 255 else 0

/-- `BinarizationMethods.adaptive(imageData, windowSize, threshold)`:
every in-range pixel's R, G and B samples become `adaptiveValue`, alpha and
any out-of-range samples are copied unchanged. -/
def adaptive (img : Img) (windowSize : Nat) (threshold : ℚ) : Img :=
  ⟨img.width, img.height, (List.range img.data.length).map fun i =>
    let p := i / 4
    let x := p % img.width
    let y := p / img.width
    if y < img.height ∧ i % 4 ≠ 3 then
      adaptiveValue img windowSize threshold x y
    else img.data.getD i 0⟩

/-- `BinarizationMethods.simpleThreshold(imageData, threshold)`. -/
def simpleThreshold (img : Img) (threshold : ℚ) : Img :=
  ⟨img.width, img.height, (List.range img.data.length).map fun i =>
    let p := i / 4
    let x := p % img.width
    let y := p / img.width
    if i % 4 ≠ 3 then
      (if lum img x y < threshold then 0 else 255)
    else img.data.getD i 0⟩

/-! The direct (specification-level) window sum, used to state what the
four-corner extraction computes. -/

/-- Sum of luminances over columns `[0, a)` of rows `[0, b)`. -/
def prefixSum2 (img : Img) (a b : Nat) : ℚ :=
  ∑ j ∈ Finset.range b, ∑ i ∈ Finset.range a, lum img i j

/-- Sum of luminances over the inclusive window `[x1, x2] × [y1, y2]`. -/
def rectSum (img : Img) (x1 x2 y1 y2 : Nat) : ℚ :=
  ∑ j ∈ Finset.Ico y1 (y2 + 1), ∑ i ∈ Finset.Ico x1 (x2 + 1), lum img i j

/-- Modelled from the spec: "compute its local window mean" — the mean
luminance of the clamped inclusive window, i.e. the window sum divided by
the number of pixels in the window. -/
def specLocalMean (img : Img) (windowSize : Nat) (x y : Nat) : ℚ :=
  let halfWindow := windowSize / 2
  let x1 := winLo x halfWindow
  let x2 := winHi img.width x halfWindow
  let y1 := winLo y halfWindow
  let y2 := winHi img.height y halfWindow
  rectSum img x1 x2 y1 y2 / (((x2 - x1 + 1) * (y2 - y1 + 1) : Nat) : ℚ)

theorem integral_eq_prefixSum2 (img : Img) :
    ∀ y x, integral img x y = prefixSum2 img (x + 1) (y + 1) := by
  intro y
  induction y with
  | zero =>
    intro x
    induction x with
    | zero =>
      simp [integral, integralRows, integralRow, prefixSum2]
    | succ x ih =>
      simp only [integral, integralRows, integralRow] at ih ⊢
      rw [ih]
      simp only [prefixSum2, Finset.sum_range_succ]
      ring
  | succ y ihy =>
    intro x
    induction x with
    | zero =>
      have h0 : integralRows img y 0 = prefixSum2 img (0 + 1) (y + 1) := ihy 0
      simp only [integral, integralRows, integralRow] at h0 ⊢
      rw [h0]
      simp only [prefixSum2, Finset.sum_range_succ]
      ring
    | succ x ihx =>
      have hx1 : integralRows img y (x + 1) = prefixSum2 img (x + 2) (y + 1) := ihy (x + 1)
      have hx0 : integralRows img y x = prefixSum2 img (x + 1) (y + 1) := ihy x
      simp only [integral, integralRows, integralRow] at ihx ⊢
      rw [ihx, hx1, hx0]
      simp only [prefixSum2, Finset.sum_range_succ]
      ring

theorem rectSum_eq_prefix (img : Img) {x1 x2 y1 y2 : Nat}
    (hx : x1 ≤ x2 + 1) (hy : y1 ≤ y2 + 1) :
    rectSum img x1 x2 y1 y2 =
      prefixSum2 img (x2 + 1) (y2 + 1) - prefixSum2 img x1 (y2 + 1)
        - prefixSum2 img (x2 + 1) y1 + prefixSum2 img x1 y1 := by
  have hrow : ∀ b : Nat, ∀ j : Nat,
      (∑ i ∈ Finset.Ico x1 (x2 + 1), lum img i j) =
        (∑ i ∈ Finset.range (x2 + 1), lum img i j)
          - ∑ i ∈ Finset.range x1, lum img i j := by
    intro b j
    rw [Finset.sum_Ico_eq_sub _ hx]
  unfold rectSum prefixSum2
  rw [Finset.sum_congr rfl (fun j _ => hrow 0 j)]
  rw [Finset.sum_sub_distrib]
  rw [Finset.sum_Ico_eq_sub _ hy, Finset.sum_Ico_eq_sub _ hy]
  ring

/-! ### Otsu binarization (`BinarizationMethods.otsu`) -/

/-- Luminance of the `p`-th pixel as the histogram pass reads it
(`data[4p]`, `data[4p+1]`, `data[4p+2]`). -/
def lumAtPixel (img : Img) (p : Nat) : ℚ :=
  (299 / 1000 : ℚ) * img.data.getD (4 * p) 0
    + (587 / 1000 : ℚ) * img.data.getD (4 * p + 1) 0
    + (114 / 1000 : ℚ) * img.data.getD (4 * p + 2) 0

/-- The 256-bin luminance histogram: how many pixels round to value `v`. -/
def histogram (img : Img) (v : ℤ) : Nat :=
  ((List.range (img.data.length / 4)).filter fun p =>
    jsRound (lumAtPixel img p) = v).length

/-- Running state of the Otsu threshold-selection loop. -/
structure OtsuState where
  wB : Nat
  sumB : Nat
  varMax : ℚ
  threshold : Nat
  stopped : Bool
deriving Repr

/-- One iteration of the Otsu loop at bin `t` (`continue` when the
background weight is still zero, `break` — modelled by the `stopped`
flag — when the foreground weight reaches zero). -/
def otsuStep (total sum : Nat) (hist : Nat → Nat) (st : OtsuState) (t : Nat) : OtsuState :=
  if st.stopped then st
  else
    let wB := st.wB + hist t
    if wB = 0 then { st with wB := wB }
    else if total - wB = 0 then { st with wB := wB, stopped := true }
    else
      let wF := total - wB
      let sumB := st.sumB + t * hist t
      let mB : ℚ := (sumB : ℚ) / (wB : ℚ)
      let mF : ℚ := ((sum : ℚ) - (sumB : ℚ)) / (wF : ℚ)
      let varBetween : ℚ := (wB : ℚ) * (wF : ℚ) * (mB - mF) * (mB - mF)
      if varBetween > st.varMax then ⟨wB, sumB, varBetween, t, false⟩
      else { st with wB := wB, sumB := sumB }

/-- `BinarizationMethods.otsu`: pick the inter-class-variance-maximizing
threshold, then apply `simpleThreshold` with it. -/
def otsu (img : Img) : Img :=
  let hist : Nat → Nat := fun t => histogram img (t : ℤ)
  let total := img.width * img.height
  let sum := ((List.range 256).map fun t => t * hist t).sum
  let final := (List.range 256).foldl (otsuStep total sum hist) ⟨0, 0, 0, 0, false⟩
  simpleThreshold img (final.threshold : ℚ)

/-! ### Detection engine -/

/-- The located quadrilateral of a decoded code (four corner points). -/
structure Quad where
  tl : ℚ × ℚ
  tr : ℚ × ℚ
  br : ℚ × ℚ
  bl : ℚ × ℚ

/-- External operations the engine delegates: the `jsQR` decode-and-locate
primitive, white-quadrilateral painting, browser canvas resampling and
region extraction (`drawImage`), and the four `ImageProcessor` transforms
(whose `Math.exp`/float kernels have no exact rational form). -/
structure Env where
  decode : Img → Option (String × Quad)
  paintQuad : Img → Quad → Img
  resampleTo : Img → Nat → Nat → Img
  cropAt : Img → ℚ → ℚ → ℚ → ℚ → Img
  gaussianBlur1 : Img → Img
  unsharpMask07 : Img → Img
  adaptiveHistEq : Img → Img
  morphClose3 : Img → Img

/-- The scan-and-clear loop body: while attempts remain, decode the current
canvas; on a hit record the payload, paint the located quadrilateral and
rescan; on a miss stop.  Returns the recorded payloads, the final canvas,
and (as instrumentation) how many times the decode primitive was invoked. -/
def scanAndClearGo (env : Env) (w h : Nat) : Nat → Img → List String × Img × Nat
  | 0, c => ([], c, 0)
  | fuel + 1, c =>
    match env.decode (getImageDataRect c w h) with
    | none => ([], c, 1)
    | some (d, q) =>
      let r := scanAndClearGo env w h fuel (env.paintQuad c q)
      (d :: r.1, r.2.1, r.2.2 + 1)

/-- `QRDetectionStrategies.scanAndClearLoop` with its attempt cap of 10. -/
def scanAndClearLoop (env : Env) (c : Img) (w h : Nat) : List String × Img × Nat :=
  scanAndClearGo env w h 10 c

/-- First-hit loop over a configuration list (the `break` on
`foundCodes.length > 0`), tallying decode invocations. -/
def tryFirstHit (attempt : α → List String × Nat) : List α → List String × Nat
  | [] => ([], 0)
  | a :: rest =>
    let r := attempt a
    if r.1.isEmpty then
      let r2 := tryFirstHit attempt rest
      (r2.1, r.2 + r2.2)
    else r

/-- First-hit loop that additionally threads the shared canvas state. -/
def tryFirstHitSt (attempt : Img → α → List String × Img × Nat) :
    List α → Img → List String × Img × Nat
  | [], c => ([], c, 0)
  | a :: rest, c =>
    let r := attempt c a
    if r.1.isEmpty then
      let r2 := tryFirstHitSt attempt rest r.2.1
      (r2.1, r2.2.1, r.2.2 + r2.2.2)
    else r

/-- Accumulating loop with no early stop (region-based scanning):
append each attempt's codes not already collected. -/
def accumAllGo (attempt : α → List String × Nat) :
    List α → List String → Nat → List String × Nat
  | [], found, n => (found, n)
  | a :: rest, found, n =>
    let r := attempt a
    accumAllGo attempt rest (found ++ r.1.filter (fun s => !found.contains s)) (n + r.2)

/-- `Math.floor` on a (nonnegative) rational. -/
def floorNatQ (q : ℚ) : Nat := (⌊q⌋).toNat

/-- The multi-scale strategy's resampling factors. -/
def msScales : List ℚ := [1, 4 / 5, 6 / 5, 3 / 5, 3 / 2, 2 / 5]

/-- One scale attempt of the multi-scale strategy: skip when either scaled
dimension is below 50, otherwise resample and run scan-and-clear. -/
def msAttempt (env : Env) (orig : Img) (w h : Nat) (scale : ℚ) : List String × Nat :=
  let sw := floorNatQ ((w : ℚ) * scale)
  let sh := floorNatQ ((h : ℚ) * scale)
  if sw < 50 ∨ sh < 50 then ([], 0)
  else
    let scaled := env.resampleTo orig sw sh
    let r := scanAndClearLoop env scaled sw sh
    (r.1, r.2.2)

/-- `QRDetectionStrategies.multiScale`: works on resampled copies only;
the shared canvas is returned untouched. -/
def multiScale (env : Env) (c : Img) : List String × Img × Nat :=
  let orig := getImageDataRect c c.width c.height
  let r := tryFirstHit (msAttempt env orig c.width c.height) msScales
  (r.1, c, r.2)

/-- The enhanced-preprocessing pipeline
{identity, Gaussian blur, unsharp mask, adaptive histogram EQ,
morphological close}. -/
def preprocessingSteps (env : Env) : List (Img → Img) :=
  [fun d => d, env.gaussianBlur1, env.unsharpMask07, env.adaptiveHistEq, env.morphClose3]

/-- `QRDetectionStrategies.enhancedPreprocessing`: snapshot the shared
canvas once, then for each step write the processed snapshot back onto the
shared canvas and scan-and-clear it, stopping at the first hit. -/
def enhancedPreprocessing (env : Env) (c : Img) : List String × Img × Nat :=
  let orig := getImageDataRect c c.width c.height
  tryFirstHitSt
    (fun cv pstep => scanAndClearLoop env (putImageData cv (pstep orig)) c.width c.height)
    (preprocessingSteps env) c

/-- The binarization sweep
{Otsu, adaptive at three window sizes, three fixed thresholds}. -/
def binarizationMethods : List (Img → Img) :=
  [otsu,
   fun d => adaptive d 15 (3 / 20),
   fun d => adaptive d 25 (1 / 10),
   fun d => adaptive d 35 (1 / 5),
   fun d => simpleThreshold d 85,
   fun d => simpleThreshold d 128,
   fun d => simpleThreshold d 170]

/-- `QRDetectionStrategies.advancedBinarization`: same shape as the
preprocessing strategy, over the binarization sweep. -/
def advancedBinarization (env : Env) (c : Img) : List String × Img × Nat :=
  let orig := getImageDataRect c c.width c.height
  tryFirstHitSt
    (fun cv bm => scanAndClearLoop env (putImageData cv (bm orig)) c.width c.height)
    binarizationMethods c

/-- The positions `0, step, 2·step, …` strictly below `bound` visited by a
`for (p = 0; p < bound; p += step)` loop (exact arithmetic). -/
def regionPositions (bound step : ℚ) : List ℚ :=
  (List.range (Nat.ceil (bound / step))).map fun i => (i : ℚ) * step

/-- One region attempt: skip regions narrower or shorter than 100,
otherwise extract the region from the snapshot and scan-and-clear it. -/
def regionAttempt (env : Env) (orig : Img) (w h : Nat) (regionSize : ℚ)
    (pos : ℚ × ℚ) : List String × Nat :=
  let y := pos.1
  let x := pos.2
  let regionWidth := min regionSize ((w : ℚ) - x)
  let regionHeight := min regionSize ((h : ℚ) - y)
  if regionWidth < 100 ∨ regionHeight < 100 then ([], 0)
  else
    let reg := env.cropAt orig x y regionWidth regionHeight
    let r := scanAndClearLoop env reg (floorNatQ regionWidth) (floorNatQ regionHeight)
    (r.1, r.2.2)

/-- `QRDetectionStrategies.regionBasedScanning`: tile the snapshot into
overlapping regions (`regionSize = min(512, max(dim)/2)`, 20% overlap) and
accumulate the hits of every region; the shared canvas is untouched. -/
def regionBasedScanning (env : Env) (c : Img) : List String × Img × Nat :=
  let orig := getImageDataRect c c.width c.height
  let regionSize : ℚ := min 512 (((max c.width c.height : Nat) : ℚ) / 2)
  let step := regionSize - regionSize * (1 / 5)
  let positions :=
    ((regionPositions (c.height : ℚ) step).map fun y =>
      (regionPositions (c.width : ℚ) step).map fun x => (y, x)).flatten
  let r := accumAllGo (regionAttempt env orig c.width c.height regionSize) positions [] 0
  (r.1, c, r.2)

/-- A decoded payload tagged with its page. -/
structure DecodedQR where
  data : String
  page : Nat
deriving DecidableEq, Repr

/-- The merge of `findAllQrCodesInImageData`: keep the fulfilled strategy
outcomes, concatenate their payload lists in strategy order, and keep the
first occurrence of each payload string (the `uniqueCodes` set). -/
def dedupGo (seen : List String) : List String → List String
  | [] => []
  | a :: rest => if seen.contains a then dedupGo seen rest else a :: dedupGo (a :: seen) rest

def mergeResults (settled : List (Except String (List String))) (pageNum : Nat) :
    List DecodedQR :=
  let allCodes :=
    (settled.filterMap fun r => match r with | .ok l => some l | .error _ => none).flatten
  (dedupGo [] allCodes).map fun d => ⟨d, pageNum⟩

/-- The detection orchestrator run from an explicit initial canvas `c0`
(the code allocates a fresh canvas and copies the input buffer onto it; the
four strategies then run to completion in order — their `async` bodies
contain no suspension point — mutating that shared canvas).  Returns the
merged codes, the final canvas, and the decode-invocation tally. -/
def findAllFrom (c0 : Img) (env : Env) (img : Img) (pageNum : Nat) :
    List DecodedQR × Img × Nat :=
  let c1 := putImageData c0 img
  let r1 := multiScale env c1
  let r2 := enhancedPreprocessing env r1.2.1
  let r3 := advancedBinarization env r2.2.1
  let r4 := regionBasedScanning env r3.2.1
  (mergeResults [.ok r1.1, .ok r2.1, .ok r3.1, .ok r4.1] pageNum,
   r4.2.1, r1.2.2 + r2.2.2 + r3.2.2 + r4.2.2)

/-- `findAllQrCodesInImageData(imageData, pageNum)`: run the orchestrator
on a fresh canvas of the buffer's dimensions. -/
def findAllQrCodesInImageData (env : Env) (img : Img) (pageNum : Nat) : List DecodedQR :=
  (findAllFrom (blankCanvas img.width img.height) env img pageNum).1

/-- How many times the orchestrator invokes the decode primitive. -/
def findAllDecodeCalls (env : Env) (img : Img) : Nat :=
  (findAllFrom (blankCanvas img.width img.height) env img 1).2.2

/-! ### File processing (`decodeQrFromImage`, `processFile`) -/

inductive FStatus where
  | success
  | no_qr_found
  | error
deriving DecidableEq, Repr

structure DecodedFileResult where
  fileName : String
  status : FStatus
  qrs : List DecodedQR
  errMsg : Option String
deriving DecidableEq, Repr

/-- An input file: its name, the outcome of `createImageBitmap` (which may
fail), and whether `canvas.getContext` yields a context. -/
structure FileModel where
  name : String
  bitmap : Except String Img
  ctxOk : Bool

/-- The adaptive scaling of `decodeQrFromImage`: downscale above 4096,
upscale (at most 2×) when both dimensions are under 2048. -/
def scaleDims (w h : Nat) : Nat × Nat :=
  if 4096 < w ∨ 4096 < h then
    let ratio : ℚ := min ((4096 : ℚ) / (w : ℚ)) ((4096 : ℚ) / (h : ℚ))
    (floorNatQ ((w : ℚ) * ratio), floorNatQ ((h : ℚ) * ratio))
  else if w < 2048 ∧ h < 2048 then
    let scaleFactor : ℚ := min 2 ((2048 : ℚ) / ((max w h : Nat) : ℚ))
    (floorNatQ ((w : ℚ) * scaleFactor), floorNatQ ((h : ℚ) * scaleFactor))
  else (w, h)

/-- The fallible body of `decodeQrFromImage` (everything inside its
`try`): obtain the bitmap, scale, require a context, draw and detect. -/
def decodeBody (env : Env) (file : FileModel) : Except String (List DecodedQR) :=
  match file.bitmap with
  | .error e => .error e
  | .ok bmp =>
    let dims := scaleDims bmp.width bmp.height
    if file.ctxOk then
      .ok (findAllQrCodesInImageData env (env.resampleTo bmp dims.1 dims.2) 1)
    else .error ("Could not get canvas context for image.")

/-- `decodeQrFromImage`: its `catch` converts every failure of the body
into an empty payload list. -/
def decodeQrFromImage (env : Env) (file : FileModel) : List DecodedQR :=
  match decodeBody env file with
  | .ok qrs => qrs
  | .error _ => []

/-- The body of `processFile`'s `try`: decode (total) and build the
success / no-QR-found result. -/
def processFileBody (env : Env) (file : FileModel) : Except String DecodedFileResult :=
  let qrs := decodeQrFromImage env file
  .ok ⟨file.name, if qrs.length > 0 then .success else .no_qr_found, qrs, none⟩

/-- `processFile`: the `catch` branch that would produce an error-status
result. -/
def processFile (env : Env) (file : FileModel) : DecodedFileResult :=
  match processFileBody env file with
  | .ok r => r
  | .error m => ⟨file.name, .error, [], some m⟩

/-! ### Task scheduler (`processQueue`, `self.onmessage`)

The worker is single-threaded: `processQueue` pops a task synchronously and
suspends only inside the task's processing.  A scheduler state therefore
records the queue, the in-flight task (if any), the latched producer-done
flag and the page counters.  External messages and the two internal
completion points (`setTimeout(processQueue)` re-entry, end of a task) are
the transition labels; any interleaving of them is admitted. -/

/-- A task in the queue: a plain image (priority 2) or a PDF page fragment
(priority 3). -/
inductive TaskKind where
  | image (fileName : String)
  | fragment (pageNum : Nat)
deriving DecidableEq, Repr

structure QueueItem where
  kind : TaskKind
  priority : Nat
deriving DecidableEq, Repr

/-- Insert `x` before the first element of strictly smaller priority
(after all elements of priority ≥ its own). -/
def insertByPrio (x : QueueItem) : List QueueItem → List QueueItem
  | [] => [x]
  | y :: ys => if y.priority ≤ x.priority then x :: y :: ys else y :: insertByPrio x ys

/-- The queue sort `messageQueue.sort((a, b) => b.priority - a.priority)`:
JavaScript's sort is stable, so its result is the unique
priority-descending order preserving arrival order within equal
priorities — computed here by stable insertion sort. -/
def sortDesc : List QueueItem → List QueueItem
  | [] => []
  | x :: xs => insertByPrio x (sortDesc xs)

/-- Scheduler state: pending queue (in arrival order within each
priority), in-flight task, latched `processingComplete` flag and the
page-progress counters. -/
structure SState where
  queue : List QueueItem
  current : Option QueueItem
  processingComplete : Bool
  processedPages : Nat
  totalExpectedPages : Nat
deriving DecidableEq, Repr

def initState : SState := ⟨[], none, false, 0, 0⟩

/-- Events the worker posts back. -/
inductive WEvent where
  | result (fileName : String) (status : FStatus) (qrs : List String) (pageNumber : Option Nat)
  | progress (processed total currentPage : Nat)
  | complete (totalProcessed : Nat)
  | error (msg : String)
deriving DecidableEq, Repr

/-- How one task's processing ended: normally with the decoded payloads,
or with an uncaught exception. -/
inductive Outcome where
  | ok (qrs : List String)
  | err (msg : String)
deriving DecidableEq, Repr

/-- Transition labels: the four inbound messages, a (possibly deferred)
`processQueue` invocation, and the completion of the in-flight task. -/
inductive Label where
  | recvImage (fileName : String)
  | recvImageData (pageNum : Nat)
  | recvSetPageCount (n : Nat)
  | recvAllFilesSent
  | startNext
  | taskDone (out : Outcome)
deriving DecidableEq, Repr

/-- The synchronous prefix of `processQueue`: if nothing is in flight and
the queue is non-empty, sort by priority (stable) and shift the head. -/
def maybeStart (s : SState) : SState :=
  if s.current.isSome then s
  else
    match sortDesc s.queue with
    | [] => s
    | it :: rest => { s with current := some it, queue := rest }

/-- Push an item and invoke `processQueue` (as both message handlers do). -/
def pushItem (s : SState) (it : QueueItem) : SState :=
  maybeStart { s with queue := s.queue ++ [it] }

/-- The `complete` emission guard at the end of a `processQueue` run:
fires when no further task is queued and the producer-done flag is set. -/
def completeCheck (s : SState) (pp : Nat) : List WEvent :=
  if s.queue.isEmpty ∧ s.processingComplete then [.complete pp] else []

def pageName (pg : Nat) : String := "PDF Page " ++ toString pg

/-- End of the in-flight task `item`: the `try` block's emissions on a
normal outcome (an always-posted result for a plain image; a result only
when codes were found, then a progress event, for a page fragment), the
`catch` block's error event on an exception, then the epilogue's
completion check. -/
def handleDone (s : SState) (item : QueueItem) (out : Outcome) : SState × List WEvent :=
  match out with
  | .err m => ({ s with current := none }, .error m :: completeCheck s s.processedPages)
  | .ok qrs =>
    match item.kind with
    | .image name =>
      ({ s with current := none },
       .result name (if qrs.length > 0 then .success else .no_qr_found) qrs none
         :: completeCheck s s.processedPages)
    | .fragment pg =>
      let pp := s.processedPages + 1
      ({ s with current := none, processedPages := pp },
       (if qrs.length > 0 then [.result (pageName pg) .success qrs (some pg)] else [])
         ++ .progress pp s.totalExpectedPages pg :: completeCheck s pp)

/-- One scheduler transition. -/
def step (s : SState) : Label → SState × List WEvent
  | .recvImage name => (pushItem s ⟨.image name, 2⟩, [])
  | .recvImageData pg => (pushItem s ⟨.fragment pg, 3⟩, [])
  | .recvSetPageCount n => ({ s with totalExpectedPages := n, processedPages := 0 }, [])
  | .recvAllFilesSent =>
    ({ s with processingComplete := true },
     if s.current.isNone ∧ s.queue.isEmpty then [.complete s.processedPages] else [])
  | .startNext => (maybeStart s, [])
  | .taskDone out =>
    match s.current with
    | none => (s, [])
    | some it => handleDone s it out

/-- Run the scheduler over a label sequence, collecting emitted events. -/
def run (s : SState) : List Label → SState × List WEvent
  | [] => (s, [])
  | l :: ls =>
    let r := step s l
    let r2 := run r.1 ls
    (r2.1, r.2 ++ r2.2)

/-- After `signal_no_more_tasks`, only internal labels may occur. -/
def PostSignal : List Label → Bool
  | [] => true
  | .startNext :: ls => PostSignal ls
  | .taskDone _ :: ls => PostSignal ls
  | _ => false

/-- Producer protocol: `allFilesSent` arrives at most once and no message
follows it. -/
def ValidTrace : List Label → Bool
  | [] => true
  | .recvAllFilesSent :: ls => PostSignal ls
  | _ :: ls => ValidTrace ls

/-- The terminal condition: nothing queued, nothing in flight, and the
producer-done flag latched. -/
def Quiescent (s : SState) : Bool :=
  s.current.isNone && s.queue.isEmpty && s.processingComplete

def isCompleteEvent : WEvent → Bool
  | .complete _ => true
  | _ => false

def isResultEvent : WEvent → Bool
  | .result _ _ _ _ => true
  | _ => false

def isProgressEvent : WEvent → Bool
  | .progress _ _ _ => true
  | _ => false

def countComplete (evs : List WEvent) : Nat := (evs.filter isCompleteEvent).length

/-! ### General lemmas -/

theorem getD_range_map {α : Type} (f : Nat → α) (n i : Nat) (d : α) (hi : i < n) :
    ((List.range n).map f).getD i d = f i := by
  have hlen : i < ((List.range n).map f).length := by simpa using hi
  rw [List.getD_eq_getElem _ _ hlen]
  simp

theorem scanAndClearGo_length_le (env : Env) (w h : Nat) :
    ∀ fuel c, (scanAndClearGo env w h fuel c).1.length ≤ fuel := by
  intro fuel
  induction fuel with
  | zero => intro c; simp [scanAndClearGo]
  | succ n ih =>
    intro c
    simp only [scanAndClearGo]
    cases henv : env.decode (getImageDataRect c w h) with
    | none => simp
    | some dq =>
      simp only [List.length_cons]
      exact Nat.succ_le_succ (ih _)

/-- C6: the scan-and-clear primitive repeatedly runs the decode-and-locate
operation; on a hit it records the payload, paints the located
quadrilateral and rescans the same buffer; it stops on a miss or at the
attempt cap of 10, hence always terminates (it is a total function) with
at most 10 payloads. -/
theorem C6_scanAndClearLoop_spec (env : Env) (c : Img) (w h : Nat) :
    (scanAndClearLoop env c w h).1.length ≤ 10 ∧
    scanAndClearLoop env c w h =
      (match env.decode (getImageDataRect c w h) with
       | none => ([], c, 1)
       | some dq =>
         let r := scanAndClearGo env w h 9 (env.paintQuad c dq.2)
         (dq.1 :: r.1, r.2.1, r.2.2 + 1)) := by
  constructor
  · exact scanAndClearGo_length_le env w h 10 c
  · show scanAndClearGo env w h 10 c = _
    cases henv : env.decode (getImageDataRect c w h) with
    | none => simp [scanAndClearGo, henv]
    | some dq => cases dq with
      | mk d q => simp [scanAndClearGo, henv]

/-! ### C5: merge policy -/

theorem dedupGo_mem : ∀ (l seen : List String) (d : String),
    d ∈ dedupGo seen l ↔ d ∈ l ∧ d ∉ seen := by
  intro l
  induction l with
  | nil => intro seen d; simp [dedupGo]
  | cons a rest ih =>
    intro seen d
    simp only [dedupGo]
    by_cases ha : seen.contains a
    · rw [if_pos ha]
      rw [ih]
      have ham : a ∈ seen := by simpa using ha
      constructor
      · rintro ⟨hd, hs⟩
        exact ⟨List.mem_cons_of_mem _ hd, hs⟩
      · rintro ⟨hd, hs⟩
        rcases List.mem_cons.mp hd with rfl | hd2
        · exact absurd ham hs
        · exact ⟨hd2, hs⟩
    · rw [if_neg ha]
      have ham : a ∉ seen := by simpa using ha
      simp only [List.mem_cons, ih, List.mem_cons, not_or]
      constructor
      · rintro (rfl | ⟨hd, hne, hs⟩)
        · exact ⟨Or.inl rfl, ham⟩
        · exact ⟨Or.inr hd, hs⟩
      · rintro ⟨rfl | hd, hs⟩
        · exact Or.inl rfl
        · by_cases hda : d = a
          · exact Or.inl hda
          · exact Or.inr ⟨hd, hda, hs⟩

theorem dedupGo_nodup : ∀ (l seen : List String), (dedupGo seen l).Nodup := by
  intro l
  induction l with
  | nil => intro seen; simp [dedupGo]
  | cons a rest ih =>
    intro seen
    simp only [dedupGo]
    by_cases ha : seen.contains a
    · rw [if_pos ha]; exact ih seen
    · rw [if_neg ha]
      refine List.nodup_cons.mpr ⟨?_, ih _⟩
      intro hmem
      rcases (dedupGo_mem rest (a :: seen) a).mp hmem with ⟨_, hns⟩
      exact hns (List.mem_cons_self a seen)

/-- C5: the merged result of detection is exactly the union of the payload
strings of the strategy outcomes that completed normally — a throwing
strategy contributes nothing and does not block the others — with each
distinct payload appearing exactly once and tagged with the page number. -/
theorem C5_merge_policy (settled : List (Except String (List String))) (pageNum : Nat) :
    (∀ d : String,
      (∃ qr ∈ mergeResults settled pageNum, qr.data = d) ↔
        ∃ l, Except.ok l ∈ settled ∧ d ∈ l)
    ∧ ((mergeResults settled pageNum).map DecodedQR.data).Nodup
    ∧ ∀ qr ∈ mergeResults settled pageNum, qr.page = pageNum := by
  refine ⟨?_, ?_, ?_⟩
  · intro d
    unfold mergeResults
    constructor
    · rintro ⟨qr, hqr, rfl⟩
      rcases List.mem_map.mp hqr with ⟨s, hs, rfl⟩
      rcases (dedupGo_mem _ [] s).mp hs with ⟨hflat, -⟩
      rcases List.mem_flatten.mp hflat with ⟨l, hl, hsl⟩
      rcases List.mem_filterMap.mp hl with ⟨r, hr, hfr⟩
      cases r with
      | ok lv =>
        simp only [Option.some.injEq] at hfr
        exact ⟨l, hfr ▸ hr, hsl⟩
      | error e => simp at hfr
    · rintro ⟨l, hl, hdl⟩
      have hflat : d ∈ (settled.filterMap fun r =>
          match r with | .ok l => some l | .error _ => none).flatten := by
        refine List.mem_flatten.mpr ⟨l, ?_, hdl⟩
        exact List.mem_filterMap.mpr ⟨Except.ok l, hl, rfl⟩
      have hded : d ∈ dedupGo [] ((settled.filterMap fun r =>
          match r with | .ok l => some l | .error _ => none).flatten) :=
        (dedupGo_mem _ [] d).mpr ⟨hflat, by simp⟩
      exact ⟨⟨d, pageNum⟩, List.mem_map.mpr ⟨d, hded, rfl⟩, rfl⟩
  · unfold mergeResults
    rw [List.map_map]
    have : (DecodedQR.data ∘ fun d => (⟨d, pageNum⟩ : DecodedQR)) = id := rfl
    rw [this, List.map_id]
    exact dedupGo_nodup _ _
  · intro qr hqr
    unfold mergeResults at hqr
    rcases List.mem_map.mp hqr with ⟨s, -, rfl⟩
    rfl

/-! ### C10: `processFile` cannot produce an error status -/

/-- C10: `processFile` always returns the success / no-QR-found result
built from `decodeQrFromImage` — its error branch is unreachable because
`decodeQrFromImage` catches every failure of its body (including a failed
bitmap acquisition or a missing canvas context) and returns an empty list
instead of propagating. -/
theorem C10_processFile_never_errors (env : Env) (file : FileModel) :
    processFile env file =
      ⟨file.name,
       (if decodeQrFromImage env file = [] then FStatus.no_qr_found else FStatus.success),
       decodeQrFromImage env file, none⟩
    ∧ (processFile env file).status ≠ FStatus.error
    ∧ (∀ e, file.bitmap = .error e → decodeQrFromImage env file = []) := by
  have hmain : processFile env file =
      ⟨file.name,
       (if decodeQrFromImage env file = [] then FStatus.no_qr_found else FStatus.success),
       decodeQrFromImage env file, none⟩ := by
    unfold processFile processFileBody
    cases hq : decodeQrFromImage env file with
    | nil => simp
    | cons a l => simp
  refine ⟨hmain, ?_, ?_⟩
  · rw [hmain]
    by_cases hq : decodeQrFromImage env file = [] <;> simp [hq]
  · intro e he
    unfold decodeQrFromImage decodeBody
    rw [he]

/-! ### C2: result events for page fragments -/

/-- C2 (counterexample): a page-fragment task whose detection finds zero
codes — one fragment of a 3-page file, completing with an empty payload
list — emits no result event at all (only the progress event), refuting
the claim that every processed fragment yields a result event. -/
theorem C2_counterexample :
    ((run initState [Label.recvSetPageCount 3, Label.recvImageData 2,
        Label.taskDone (Outcome.ok [])]).2.filter isResultEvent).length = 0
    ∧ ((run initState [Label.recvSetPageCount 3, Label.recvImageData 2,
        Label.taskDone (Outcome.ok [])]).2.filter isProgressEvent).length = 1 := by
  decide

/-- C2 (amended): when a page-fragment task finishes normally, a result
event (with status `success`) is emitted only when at least one code was
found; in every case it is followed by a progress event carrying the
processed count, the expected total and the current page — so a blank page
produces a progress event but no result event. -/
theorem C2_fragment_events (s : SState) (pg prio : Nat) (qrs : List String)
    (h : s.current = some ⟨TaskKind.fragment pg, prio⟩) :
    (step s (.taskDone (.ok qrs))).2 =
      (if qrs.length > 0 then [.result (pageName pg) .success qrs (some pg)] else [])
        ++ .progress (s.processedPages + 1) s.totalExpectedPages pg
          :: completeCheck s (s.processedPages + 1)
    ∧ (step s (.taskDone (.ok qrs))).1 =
        { s with current := none, processedPages := s.processedPages + 1 } := by
  simp [step, h, handleDone]

theorem C2_fragment_events_witness :
    ((⟨[], some ⟨TaskKind.fragment 2, 3⟩, false, 0, 3⟩ : SState).current =
      some ⟨TaskKind.fragment 2, 3⟩)
    ∧ (step (⟨[], some ⟨TaskKind.fragment 2, 3⟩, false, 0, 3⟩ : SState)
        (.taskDone (.ok []))).2 =
      (if ([] : List String).length > 0 then
        [.result (pageName 2) .success [] (some 2)] else [])
        ++ .progress 1 3 2
          :: completeCheck (⟨[], some ⟨TaskKind.fragment 2, 3⟩, false, 0, 3⟩ : SState) 1 :=
  ⟨rfl, (C2_fragment_events ⟨[], some ⟨TaskKind.fragment 2, 3⟩, false, 0, 3⟩ 2 3 [] rfl).1⟩

/-! ### C8: exceptions during task processing -/

theorem insertByPrio_ne_nil (x : QueueItem) (l : List QueueItem) :
    insertByPrio x l ≠ [] := by
  cases l with
  | nil => simp [insertByPrio]
  | cons y ys =>
    simp only [insertByPrio]
    by_cases h : y.priority ≤ x.priority <;> simp [h]

theorem sortDesc_eq_nil_iff (l : List QueueItem) : sortDesc l = [] ↔ l = [] := by
  cases l with
  | nil => simp [sortDesc]
  | cons x xs =>
    simp only [sortDesc]
    exact ⟨fun h => absurd h (insertByPrio_ne_nil _ _), fun h => by cases h⟩

/-- C8: an exception raised while a task is processed is caught: the
scheduler emits exactly one task-level error event (plus, at most, the
completion event), clears the in-flight slot leaving the queue intact, and
the next queued task can start — no exception terminates the drain loop. -/
theorem C8_task_error_recovery (s : SState) (it : QueueItem) (m : String)
    (h : s.current = some it) :
    (step s (.taskDone (.err m))).1 = { s with current := none }
    ∧ (step s (.taskDone (.err m))).2 = .error m :: completeCheck s s.processedPages
    ∧ (s.queue ≠ [] →
        (maybeStart (step s (.taskDone (.err m))).1).current.isSome = true) := by
  refine ⟨by simp [step, h, handleDone], by simp [step, h, handleDone], ?_⟩
  intro hq
  have h1 : (step s (.taskDone (.err m))).1 = { s with current := none } := by
    simp [step, h, handleDone]
  rw [h1]
  unfold maybeStart
  cases hs : sortDesc s.queue with
  | nil => exact absurd ((sortDesc_eq_nil_iff _).mp hs) hq
  | cons a rest => simp [hs]

theorem C8_task_error_recovery_witness :
    ((⟨[⟨TaskKind.image "b", 2⟩], some ⟨TaskKind.image "a", 2⟩, false, 0, 0⟩ : SState).current
       = some ⟨TaskKind.image "a", 2⟩)
    ∧ (step (⟨[⟨TaskKind.image "b", 2⟩], some ⟨TaskKind.image "a", 2⟩, false, 0, 0⟩ : SState)
        (.taskDone (.err "boom"))).2 =
      .error "boom"
        :: completeCheck
          (⟨[⟨TaskKind.image "b", 2⟩], some ⟨TaskKind.image "a", 2⟩, false, 0, 0⟩ : SState) 0 :=
  ⟨rfl,
   (C8_task_error_recovery
     ⟨[⟨TaskKind.image "b", 2⟩], some ⟨TaskKind.image "a", 2⟩, false, 0, 0⟩
     ⟨TaskKind.image "a", 2⟩ "boom" rfl).2.1⟩

/-! ### C4: priority ordering with FIFO tie-breaking -/

def maxPrio (l : List QueueItem) : Nat := l.foldr (fun it m => max it.priority m) 0

theorem maxPrio_le (l : List QueueItem) : ∀ y ∈ l, y.priority ≤ maxPrio l := by
  induction l with
  | nil => intro y hy; cases hy
  | cons a rest ih =>
    intro y hy
    rcases List.mem_cons.mp hy with rfl | hy2
    · exact Nat.le_max_left _ _
    · exact le_trans (ih y hy2) (Nat.le_max_right _ _)

theorem insertByPrio_filter (x : QueueItem) (p : Nat) :
    ∀ l : List QueueItem,
      (insertByPrio x l).filter (fun y => y.priority == p) =
        (if x.priority = p then
          x :: l.filter (fun y => y.priority == p)
        else l.filter (fun y => y.priority == p)) := by
  intro l
  induction l with
  | nil =>
    by_cases hx : x.priority = p <;>
      simp [insertByPrio, List.filter_cons, hx]
  | cons y ys ih =>
    simp only [insertByPrio]
    by_cases hyx : y.priority ≤ x.priority
    · rw [if_pos hyx]
      by_cases hx : x.priority = p <;> simp [List.filter_cons, hx]
    · rw [if_neg hyx]
      have hxy : x.priority < y.priority := Nat.lt_of_not_le hyx
      by_cases hy : y.priority = p
      · have hx : ¬ x.priority = p := by omega
        simp [List.filter_cons, hy, hx, ih]
      · by_cases hx : x.priority = p <;>
          simp [List.filter_cons, hy, hx, ih]

theorem sortDesc_filter (p : Nat) :
    ∀ l : List QueueItem,
      (sortDesc l).filter (fun y => y.priority == p) =
        l.filter (fun y => y.priority == p) := by
  intro l
  induction l with
  | nil => rfl
  | cons x xs ih =>
    simp only [sortDesc]
    rw [insertByPrio_filter]
    by_cases hx : x.priority = p <;> simp [List.filter_cons, hx, ih]

theorem insertByPrio_head (x : QueueItem) (l : List QueueItem) :
    (insertByPrio x l).head? =
      (match l.head? with
       | none => some x
       | some y => if y.priority ≤ x.priority then some x else some y) := by
  cases l with
  | nil => simp [insertByPrio]
  | cons y ys =>
    simp only [insertByPrio, List.head?]
    by_cases h : y.priority ≤ x.priority <;> simp [h]

theorem maxPrio_cons (x : QueueItem) (xs : List QueueItem) :
    maxPrio (x :: xs) = max x.priority (maxPrio xs) := rfl

theorem sortDesc_head (l : List QueueItem) (hne : l ≠ []) :
    (sortDesc l).head? = l.find? (fun y => y.priority == maxPrio l) := by
  induction l with
  | nil => exact absurd rfl hne
  | cons x xs ih =>
    by_cases hxs : xs = []
    · subst hxs
      simp [sortDesc, insertByPrio, maxPrio, List.find?]
    · have ihx := ih hxs
      have hsne : sortDesc xs ≠ [] := fun h => hxs ((sortDesc_eq_nil_iff xs).mp h)
      obtain ⟨hd, tl, hcons⟩ : ∃ hd tl, sortDesc xs = hd :: tl := by
        cases hs : sortDesc xs with
        | nil => exact absurd hs hsne
        | cons a b => exact ⟨a, b, rfl⟩
      have hhd : xs.find? (fun y => y.priority == maxPrio xs) = some hd := by
        rw [← ihx, hcons]; rfl
      have hhdP : hd.priority = maxPrio xs := by
        have := List.find?_some hhd
        simpa using this
      show (insertByPrio x (sortDesc xs)).head? = _
      rw [insertByPrio_head, hcons]
      simp only [List.head?, maxPrio_cons]
      by_cases hcase : maxPrio xs ≤ x.priority
      · have hmax : max x.priority (maxPrio xs) = x.priority := Nat.max_eq_left hcase
        rw [hmax]
        have hcond : hd.priority ≤ x.priority := by omega
        rw [if_pos hcond]
        simp [List.find?]
      · have hlt : x.priority < maxPrio xs := Nat.lt_of_not_le hcase
        have hmax : max x.priority (maxPrio xs) = maxPrio xs :=
          Nat.max_eq_right (le_of_lt hlt)
        rw [hmax]
        have hcond : ¬ hd.priority ≤ x.priority := by omega
        rw [if_neg hcond]
        have hpx : (x.priority == maxPrio xs) = false := by
          simp only [beq_eq_false_iff_ne, ne_eq]
          omega
        simp only [List.find?, hpx]
        exact hhd.symm

/-- C4: the dequeue of `processQueue` (stable sort by descending priority,
then shift) always pops a maximal-priority task, and among equal-priority
tasks the earliest-arrived one; relative arrival order within every
priority class is preserved in the remaining queue.  In particular, with
one plain-image task (priority 2) and one page-fragment task (priority 3)
queued in either order, the fragment is dequeued first. -/
theorem C4_priority_dequeue (s : SState) (h1 : s.current = none) (h2 : s.queue ≠ []) :
    (∃ it rest,
      maybeStart s = { s with current := some it, queue := rest }
      ∧ (∀ y ∈ s.queue, y.priority ≤ it.priority)
      ∧ s.queue.find? (fun y => y.priority == it.priority) = some it
      ∧ (∀ p : Nat, (it :: rest).filter (fun y => y.priority == p) =
          s.queue.filter (fun y => y.priority == p)))
    ∧ ∀ a b : QueueItem, a.priority = 2 → b.priority = 3 →
        s.queue = [a, b] ∨ s.queue = [b, a] → (maybeStart s).current = some b := by
  constructor
  · obtain ⟨it, rest, hsd⟩ : ∃ it rest, sortDesc s.queue = it :: rest := by
      cases hs : sortDesc s.queue with
      | nil => exact absurd ((sortDesc_eq_nil_iff _).mp hs) h2
      | cons a b => exact ⟨a, b, rfl⟩
    have hms : maybeStart s = { s with current := some it, queue := rest } := by
      simp [maybeStart, h1, hsd]
    have hfind : s.queue.find? (fun y => y.priority == maxPrio s.queue) = some it := by
      rw [← sortDesc_head s.queue h2, hsd]
      rfl
    have hitP : it.priority = maxPrio s.queue := by
      simpa using List.find?_some hfind
    refine ⟨it, rest, hms, ?_, ?_, ?_⟩
    · intro y hy
      rw [hitP]
      exact maxPrio_le _ y hy
    · rw [hitP]
      exact hfind
    · intro p
      rw [← hsd, sortDesc_filter]
  · intro a b ha hb hq
    rcases hq with hq | hq <;>
      simp [maybeStart, h1, hq, sortDesc, insertByPrio, ha, hb]

theorem C4_priority_dequeue_witness :
    ((⟨[⟨TaskKind.image "a", 2⟩, ⟨TaskKind.fragment 1, 3⟩], none, false, 0, 0⟩ : SState).current
        = none)
    ∧ (maybeStart
        (⟨[⟨TaskKind.image "a", 2⟩, ⟨TaskKind.fragment 1, 3⟩], none, false, 0, 0⟩ : SState)).current
        = some ⟨TaskKind.fragment 1, 3⟩ :=
  ⟨rfl,
   (C4_priority_dequeue
      ⟨[⟨TaskKind.image "a", 2⟩, ⟨TaskKind.fragment 1, 3⟩], none, false, 0, 0⟩
      rfl (by simp)).2
     ⟨TaskKind.image "a", 2⟩ ⟨TaskKind.fragment 1, 3⟩ rfl rfl (Or.inl rfl)⟩

/-! ### C3: the completion event -/

theorem countComplete_append (a b : List WEvent) :
    countComplete (a ++ b) = countComplete a + countComplete b := by
  simp [countComplete, List.filter_append]

theorem Quiescent_false_of_flag {s : SState} (h : s.processingComplete = false) :
    Quiescent s = false := by
  simp [Quiescent, h]

theorem maybeStart_flag (s : SState) :
    (maybeStart s).processingComplete = s.processingComplete := by
  unfold maybeStart
  by_cases h : s.current.isSome
  · rw [if_pos h]
  · rw [if_neg h]
    cases hs : sortDesc s.queue with
    | nil => rfl
    | cons a r => rfl

theorem pushItem_flag (s : SState) (it : QueueItem) :
    (pushItem s it).processingComplete = s.processingComplete := by
  unfold pushItem
  rw [maybeStart_flag]

theorem Quiescent_maybeStart (s : SState) : Quiescent (maybeStart s) = Quiescent s := by
  unfold maybeStart
  by_cases h : s.current.isSome
  · rw [if_pos h]
  · rw [if_neg h]
    cases hs : sortDesc s.queue with
    | nil => rfl
    | cons a r =>
      have hq : s.queue ≠ [] := by
        intro he
        rw [he] at hs
        exact List.noConfusion hs
      have hqe : s.queue.isEmpty = false := by
        cases hqq : s.queue with
        | nil => exact absurd hqq hq
        | cons _ _ => rfl
      simp [Quiescent, hqe]

theorem handleDone_fields (s : SState) (it : QueueItem) (out : Outcome) :
    (handleDone s it out).1.current = none
    ∧ (handleDone s it out).1.queue = s.queue
    ∧ (handleDone s it out).1.processingComplete = s.processingComplete := by
  cases out with
  | err m => exact ⟨rfl, rfl, rfl⟩
  | ok qrs =>
    cases hk : it.kind with
    | image n => simp [handleDone, hk]
    | fragment pg => simp [handleDone, hk]

theorem countComplete_completeCheck (s : SState) (pp : Nat) :
    countComplete (completeCheck s pp) =
      (if s.queue.isEmpty ∧ s.processingComplete then 1 else 0) := by
  unfold completeCheck
  by_cases h : s.queue.isEmpty ∧ s.processingComplete
  · rw [if_pos h, if_pos h]
    rfl
  · rw [if_neg h, if_neg h]
    rfl

theorem handleDone_count (s : SState) (it : QueueItem) (out : Outcome) :
    countComplete (handleDone s it out).2 =
      (if s.queue.isEmpty ∧ s.processingComplete then 1 else 0) := by
  cases out with
  | err m =>
    show countComplete (.error m :: completeCheck s s.processedPages) = _
    have : countComplete (.error m :: completeCheck s s.processedPages) =
        countComplete (completeCheck s s.processedPages) := by
      simp [countComplete, isCompleteEvent]
    rw [this, countComplete_completeCheck]
  | ok qrs =>
    cases hk : it.kind with
    | image n =>
      simp only [handleDone, hk]
      have : countComplete
          (.result n (if qrs.length > 0 then .success else .no_qr_found) qrs none
            :: completeCheck s s.processedPages) =
          countComplete (completeCheck s s.processedPages) := by
        simp [countComplete, isCompleteEvent]
      rw [this, countComplete_completeCheck]
    | fragment pg =>
      simp only [handleDone, hk]
      rw [countComplete_append]
      have h1 : countComplete
          (if qrs.length > 0 then [.result (pageName pg) .success qrs (some pg)] else []) = 0 := by
        by_cases h : qrs.length > 0 <;> simp [h, countComplete, isCompleteEvent]
      have h2 : countComplete
          (.progress (s.processedPages + 1) s.totalExpectedPages pg
            :: completeCheck s (s.processedPages + 1)) =
          countComplete (completeCheck s (s.processedPages + 1)) := by
        simp [countComplete, isCompleteEvent]
      rw [h1, h2, countComplete_completeCheck]
      exact Nat.zero_add _

theorem run_quiescent : ∀ (ls : List Label) (s : SState),
    Quiescent s = true → PostSignal ls = true → run s ls = (s, []) := by
  intro ls
  induction ls with
  | nil => intro s _ _; rfl
  | cons l ls ih =>
    intro s hq hp
    have hq2 := hq
    unfold Quiescent at hq2
    simp only [Bool.and_eq_true, Option.isNone_iff_eq_none, List.isEmpty_iff] at hq2
    obtain ⟨⟨hcur, hqe⟩, hflag⟩ := hq2
    cases l with
    | startNext =>
      have hstep : step s .startNext = (s, []) := by
        simp [step, maybeStart, hcur, hqe, sortDesc]
      have hp2 : PostSignal ls = true := hp
      simp only [run, hstep]
      rw [ih s hq hp2]
      rfl
    | taskDone out =>
      have hstep : step s (.taskDone out) = (s, []) := by
        simp [step, hcur]
      have hp2 : PostSignal ls = true := hp
      simp only [run, hstep]
      rw [ih s hq hp2]
      rfl
    | recvImage n => simp [PostSignal] at hp
    | recvImageData pg => simp [PostSignal] at hp
    | recvSetPageCount n => simp [PostSignal] at hp
    | recvAllFilesSent => simp [PostSignal] at hp

theorem run_completes : ∀ (ls : List Label) (s : SState),
    (if s.processingComplete then PostSignal ls else ValidTrace ls) = true →
    countComplete (run s ls).2 =
      (if Quiescent (run s ls).1 && !Quiescent s then 1 else 0) := by
  intro ls
  induction ls with
  | nil =>
    intro s _
    show countComplete [] = (if Quiescent s && !Quiescent s then 1 else 0)
    cases hq : Quiescent s <;> simp [hq, countComplete]
  | cons l ls ih =>
    intro s hvalid
    cases l with
    | recvImage name =>
      by_cases hf : s.processingComplete
      · rw [if_pos hf] at hvalid
        simp [PostSignal] at hvalid
      · rw [if_neg hf] at hvalid
        have hvt : ValidTrace ls = true := hvalid
        have hflag2 : (pushItem s ⟨.image name, 2⟩).processingComplete = false := by
          rw [pushItem_flag]
          exact Bool.eq_false_iff.mpr hf
        have htr : (if (pushItem s ⟨.image name, 2⟩).processingComplete then PostSignal ls
            else ValidTrace ls) = true := by
          simp [hflag2, hvt]
        have ihh := ih (pushItem s ⟨.image name, 2⟩) htr
        have hfin : (run s (Label.recvImage name :: ls)).1 =
            (run (pushItem s ⟨.image name, 2⟩) ls).1 := rfl
        have hev : (run s (Label.recvImage name :: ls)).2 =
            (run (pushItem s ⟨.image name, 2⟩) ls).2 := rfl
        rw [hev, ihh, hfin, Quiescent_false_of_flag hflag2,
          Quiescent_false_of_flag (Bool.eq_false_iff.mpr hf)]
    | recvImageData pg =>
      by_cases hf : s.processingComplete
      · rw [if_pos hf] at hvalid
        simp [PostSignal] at hvalid
      · rw [if_neg hf] at hvalid
        have hvt : ValidTrace ls = true := hvalid
        have hflag2 : (pushItem s ⟨.fragment pg, 3⟩).processingComplete = false := by
          rw [pushItem_flag]
          exact Bool.eq_false_iff.mpr hf
        have htr : (if (pushItem s ⟨.fragment pg, 3⟩).processingComplete then PostSignal ls
            else ValidTrace ls) = true := by
          simp [hflag2, hvt]
        have ihh := ih (pushItem s ⟨.fragment pg, 3⟩) htr
        have hfin : (run s (Label.recvImageData pg :: ls)).1 =
            (run (pushItem s ⟨.fragment pg, 3⟩) ls).1 := rfl
        have hev : (run s (Label.recvImageData pg :: ls)).2 =
            (run (pushItem s ⟨.fragment pg, 3⟩) ls).2 := rfl
        rw [hev, ihh, hfin, Quiescent_false_of_flag hflag2,
          Quiescent_false_of_flag (Bool.eq_false_iff.mpr hf)]
    | recvSetPageCount n =>
      by_cases hf : s.processingComplete
      · rw [if_pos hf] at hvalid
        simp [PostSignal] at hvalid
      · rw [if_neg hf] at hvalid
        have hvt : ValidTrace ls = true := hvalid
        have hflag2 : ({s with totalExpectedPages := n, processedPages := 0} :
            SState).processingComplete = false := Bool.eq_false_iff.mpr hf
        have htr : (if ({s with totalExpectedPages := n, processedPages := 0} :
            SState).processingComplete then PostSignal ls else ValidTrace ls) = true := by
          simp [Bool.eq_false_iff.mpr hf, hvt]
        have ihh := ih { s with totalExpectedPages := n, processedPages := 0 } htr
        have hfin : (run s (Label.recvSetPageCount n :: ls)).1 =
            (run { s with totalExpectedPages := n, processedPages := 0 } ls).1 := rfl
        have hev : (run s (Label.recvSetPageCount n :: ls)).2 =
            (run { s with totalExpectedPages := n, processedPages := 0 } ls).2 := rfl
        rw [hev, ihh, hfin, Quiescent_false_of_flag hflag2,
          Quiescent_false_of_flag (Bool.eq_false_iff.mpr hf)]
    | recvAllFilesSent =>
      by_cases hf : s.processingComplete
      · rw [if_pos hf] at hvalid
        simp [PostSignal] at hvalid
      · rw [if_neg hf] at hvalid
        have hps : PostSignal ls = true := hvalid
        have hfin : (run s (Label.recvAllFilesSent :: ls)).1 =
            (run ({ s with processingComplete := true } : SState) ls).1 := rfl
        have hev : (run s (Label.recvAllFilesSent :: ls)).2 =
            (if s.current.isNone ∧ s.queue.isEmpty then
              [WEvent.complete s.processedPages] else [])
              ++ (run ({ s with processingComplete := true } : SState) ls).2 := rfl
        by_cases hg : s.current.isNone ∧ s.queue.isEmpty
        · have hq2 : Quiescent ({ s with processingComplete := true } : SState) = true := by
            unfold Quiescent
            simp [hg.1, hg.2]
          have habs := run_quiescent ls { s with processingComplete := true } hq2 hps
          have hfin2 : (run s (Label.recvAllFilesSent :: ls)).1 =
              ({ s with processingComplete := true } : SState) := by
            rw [hfin, habs]
          have hev2 : (run s (Label.recvAllFilesSent :: ls)).2 =
              [WEvent.complete s.processedPages] := by
            rw [hev, habs, if_pos hg]
            rfl
          rw [hev2, hfin2, hq2, Quiescent_false_of_flag (Bool.eq_false_iff.mpr hf)]
          simp [countComplete, isCompleteEvent]
        · have hq2 : Quiescent ({ s with processingComplete := true } : SState) = false := by
            unfold Quiescent
            rcases not_and_or.mp hg with h | h
            · have hcc : s.current.isNone = false := by
                revert h
                cases s.current.isNone <;> simp
              simp [hcc]
            · have hqe : s.queue.isEmpty = false := by
                revert h
                cases s.queue.isEmpty <;> simp
              simp [hqe]
          have htr : (if ({ s with processingComplete := true } :
              SState).processingComplete then PostSignal ls else ValidTrace ls) = true := by
            simp [hps]
          have ihh := ih { s with processingComplete := true } htr
          have hev2 : (run s (Label.recvAllFilesSent :: ls)).2 =
              (run ({ s with processingComplete := true } : SState) ls).2 := by
            rw [hev, if_neg hg]
            rfl
          rw [hev2, ihh, hfin, hq2, Quiescent_false_of_flag (Bool.eq_false_iff.mpr hf)]
    | startNext =>
      have htr : (if (maybeStart s).processingComplete then PostSignal ls
          else ValidTrace ls) = true := by
        rw [maybeStart_flag]
        exact hvalid
      have ihh := ih (maybeStart s) htr
      have hfin : (run s (Label.startNext :: ls)).1 = (run (maybeStart s) ls).1 := rfl
      have hev : (run s (Label.startNext :: ls)).2 = (run (maybeStart s) ls).2 := rfl
      rw [hev, ihh, hfin, Quiescent_maybeStart]
    | taskDone out =>
      cases hc : s.current with
      | none =>
        have hstep : step s (.taskDone out) = (s, []) := by simp [step, hc]
        have htr : (if s.processingComplete then PostSignal ls else ValidTrace ls)
            = true := hvalid
        have ihh := ih s htr
        have hfin : (run s (Label.taskDone out :: ls)).1 = (run s ls).1 := by
          simp only [run, hstep]
        have hev : (run s (Label.taskDone out :: ls)).2 = (run s ls).2 := by
          simp only [run, hstep]
          rfl
        rw [hev, ihh, hfin]
      | some it =>
        have hstep : step s (.taskDone out) = handleDone s it out := by simp [step, hc]
        obtain ⟨hcur2, hque2, hflag2⟩ := handleDone_fields s it out
        have hcount := handleDone_count s it out
        have hQs : Quiescent s = false := by
          unfold Quiescent
          simp [hc]
        have hfin : (run s (Label.taskDone out :: ls)).1 =
            (run (handleDone s it out).1 ls).1 := by
          simp only [run, hstep]
        have hev : (run s (Label.taskDone out :: ls)).2 =
            (handleDone s it out).2 ++ (run (handleDone s it out).1 ls).2 := by
          simp only [run, hstep]
        by_cases hg : s.queue.isEmpty ∧ s.processingComplete
        · have hq2 : Quiescent (handleDone s it out).1 = true := by
            unfold Quiescent
            simp [hcur2, hque2, hflag2, hg.1, hg.2]
          have hps : PostSignal ls = true := by
            rw [if_pos hg.2] at hvalid
            exact hvalid
          have habs := run_quiescent ls (handleDone s it out).1 hq2 hps
          have hfin2 : (run s (Label.taskDone out :: ls)).1 = (handleDone s it out).1 := by
            rw [hfin, habs]
          have hev2 : (run s (Label.taskDone out :: ls)).2 = (handleDone s it out).2 := by
            rw [hev, habs]
            simp
          rw [hev2, hfin2, hcount, hq2, hQs, if_pos hg]
          simp
        · have hq2 : Quiescent (handleDone s it out).1 = false := by
            unfold Quiescent
            rcases not_and_or.mp hg with h | h
            · have hqe : s.queue.isEmpty = false := by
                revert h
                cases s.queue.isEmpty <;> simp
              simp [hcur2, hque2, hflag2, hqe]
            · have hfe : s.processingComplete = false := by
                revert h
                cases s.processingComplete <;> simp
              simp [hcur2, hque2, hflag2, hfe]
          have htr : (if (handleDone s it out).1.processingComplete then PostSignal ls
              else ValidTrace ls) = true := by
            rw [hflag2]
            exact hvalid
          have ihh := ih (handleDone s it out).1 htr
          rw [hev, countComplete_append, hcount, ihh, hfin, hq2, hQs, if_neg hg]
          simp

theorem PostSignal_append_left : ∀ l1 l2 : List Label,
    PostSignal (l1 ++ l2) = true → PostSignal l1 = true := by
  intro l1
  induction l1 with
  | nil => intro l2 _; rfl
  | cons l rest ih =>
    intro l2 hp
    cases l with
    | startNext => exact ih l2 hp
    | taskDone out => exact ih l2 hp
    | recvImage n => exact absurd hp (by simp [PostSignal])
    | recvImageData pg => exact absurd hp (by simp [PostSignal])
    | recvSetPageCount n => exact absurd hp (by simp [PostSignal])
    | recvAllFilesSent => exact absurd hp (by simp [PostSignal])

theorem ValidTrace_append_left : ∀ l1 l2 : List Label,
    ValidTrace (l1 ++ l2) = true → ValidTrace l1 = true := by
  intro l1
  induction l1 with
  | nil => intro l2 _; rfl
  | cons l rest ih =>
    intro l2 hv
    cases l with
    | recvAllFilesSent =>
      show PostSignal rest = true
      exact PostSignal_append_left rest l2 hv
    | recvImage n => exact ih l2 hv
    | recvImageData pg => exact ih l2 hv
    | recvSetPageCount n => exact ih l2 hv
    | startNext => exact ih l2 hv
    | taskDone out => exact ih l2 hv

/-- C3: over every trace obeying the producer protocol (`allFilesSent` at
most once and final), the number of emitted completion events is 1 when the
run ends quiescent — producer-done flag latched, queue drained, nothing in
flight — and 0 otherwise; applying this to every prefix shows `complete` is
emitted exactly once, and only at the point where the done signal has been
received and the queue is empty, so a signal arriving over a non-empty
queue is latched until the last task's result. -/
theorem C3_complete_once (ls : List Label) (h : ValidTrace ls = true) :
    (countComplete (run initState ls).2 =
      (if Quiescent (run initState ls).1 then 1 else 0))
    ∧ ∀ l1 l2, ls = l1 ++ l2 →
        countComplete (run initState l1).2 =
          (if Quiescent (run initState l1).1 then 1 else 0) := by
  have hmain : ∀ ls2 : List Label, ValidTrace ls2 = true →
      countComplete (run initState ls2).2 =
        (if Quiescent (run initState ls2).1 then 1 else 0) := by
    intro ls2 h2
    have htr : (if initState.processingComplete then PostSignal ls2
        else ValidTrace ls2) = true := h2
    have hrc := run_completes ls2 initState htr
    have hq0 : Quiescent initState = false := rfl
    rw [hq0] at hrc
    simpa using hrc
  exact ⟨hmain ls h, fun l1 l2 he => hmain l1 (ValidTrace_append_left l1 l2 (he ▸ h))⟩

theorem C3_complete_once_witness :
    ValidTrace [Label.recvImage "f", Label.recvImageData 1, Label.recvImageData 2,
      Label.taskDone (Outcome.ok ["X"]), Label.recvAllFilesSent, Label.startNext,
      Label.taskDone (Outcome.ok []), Label.startNext, Label.taskDone (Outcome.ok [])] = true
    ∧ countComplete (run initState [Label.recvImage "f", Label.recvImageData 1,
        Label.recvImageData 2, Label.taskDone (Outcome.ok ["X"]), Label.recvAllFilesSent,
        Label.startNext, Label.taskDone (Outcome.ok []), Label.startNext,
        Label.taskDone (Outcome.ok [])]).2 =
      (if Quiescent (run initState [Label.recvImage "f", Label.recvImageData 1,
        Label.recvImageData 2, Label.taskDone (Outcome.ok ["X"]), Label.recvAllFilesSent,
        Label.startNext, Label.taskDone (Outcome.ok []), Label.startNext,
        Label.taskDone (Outcome.ok [])]).1 then 1 else 0)
    ∧ countComplete (run initState [Label.recvImage "f", Label.recvImageData 1,
        Label.recvImageData 2, Label.taskDone (Outcome.ok ["X"]), Label.recvAllFilesSent,
        Label.startNext, Label.taskDone (Outcome.ok []), Label.startNext,
        Label.taskDone (Outcome.ok [])]).2 = 1 :=
  ⟨by decide,
   (C3_complete_once [Label.recvImage "f", Label.recvImageData 1, Label.recvImageData 2,
      Label.taskDone (Outcome.ok ["X"]), Label.recvAllFilesSent, Label.startNext,
      Label.taskDone (Outcome.ok []), Label.startNext,
      Label.taskDone (Outcome.ok [])] (by decide)).1,
   by decide⟩

/-! ### C7: the adaptive threshold -/

theorem prefixSum2_zero_left (img : Img) (b : Nat) : prefixSum2 img 0 b = 0 := by
  simp [prefixSum2]

theorem prefixSum2_zero_right (img : Img) (a : Nat) : prefixSum2 img a 0 = 0 := by
  simp [prefixSum2]

/-- The four-corner extraction from the integral image computes exactly the
luminance sum of the inclusive window. -/
theorem windowSumCode_eq_rectSum (img : Img) {x1 x2 y1 y2 : Nat}
    (hx : x1 ≤ x2 + 1) (hy : y1 ≤ y2 + 1) :
    windowSumCode img x1 x2 y1 y2 = rectSum img x1 x2 y1 y2 := by
  have h1 : (if 0 < x1 then integral img (x1 - 1) y2 else 0) =
      prefixSum2 img x1 (y2 + 1) := by
    rcases Nat.eq_zero_or_pos x1 with h | h
    · rw [h, if_neg (by omega), prefixSum2_zero_left]
    · rw [if_pos h, integral_eq_prefixSum2]
      congr 1
      omega
  have h2 : (if 0 < y1 then integral img x2 (y1 - 1) else 0) =
      prefixSum2 img (x2 + 1) y1 := by
    rcases Nat.eq_zero_or_pos y1 with h | h
    · rw [h, if_neg (by omega), prefixSum2_zero_right]
    · rw [if_pos h, integral_eq_prefixSum2]
      congr 1
      omega
  have h3 : (if 0 < x1 ∧ 0 < y1 then integral img (x1 - 1) (y1 - 1) else 0) =
      prefixSum2 img x1 y1 := by
    by_cases h : 0 < x1 ∧ 0 < y1
    · rw [if_pos h, integral_eq_prefixSum2]
      congr 1
      · omega
      · omega
    · rw [if_neg h]
      rcases not_and_or.mp h with hc | hc
    

      · rw [(by omega : x1 = 0), prefixSum2_zero_left]
      · rw [(by omega : y1 = 0), prefixSum2_zero_right]
  unfold windowSumCode
  rw [h1, h2, h3, integral_eq_prefixSum2, rectSum_eq_prefix img hx hy]

/-- Reading the output of `adaptive` at the first sample of the in-range
pixel `(x, y)` gives `adaptiveValue`. -/
theorem adaptive_getD (img : Img) (ws : Nat) (t : ℚ) (x y : Nat)
    (hwf : img.data.length = 4 * img.width * img.height)
    (hx : x < img.width) (hy : y < img.height) :
    (adaptive img ws t).data.getD ((y * img.width + x) * 4) 0 =
      adaptiveValue img ws t x y := by
  have hw0 : 0 < img.width := Nat.lt_of_le_of_lt (Nat.zero_le x) hx
  have hp : y * img.width + x < img.width * img.height := by
    calc y * img.width + x < (y + 1) * img.width := by
          rw [Nat.succ_mul]
          omega
      _ ≤ img.height * img.width := Nat.mul_le_mul_right _ hy
      _ = img.width * img.height := Nat.mul_comm _ _
  have hidx : (y * img.width + x) * 4 < img.data.length := by
    rw [hwf]
    calc (y * img.width + x) * 4 < (img.width * img.height) * 4 :=
          (Nat.mul_lt_mul_right (by norm_num)).mpr hp
      _ = 4 * img.width * img.height := by ring
  show ((List.range img.data.length).map _).getD _ 0 = _
  rw [getD_range_map _ _ _ _ hidx]
  have h4 : (y * img.width + x) * 4 / 4 = y * img.width + x := by omega
  have hmod : (y * img.width + x) * 4 % 4 = 0 := by omega
  simp only [h4, hmod]
  have hxw : (y * img.width + x) % img.width = x := by
    rw [Nat.mul_comm y img.width, Nat.mul_add_mod]
    exact Nat.mod_eq_of_lt hx
  have hyw : (y * img.width + x) / img.width = y := by
    rw [Nat.mul_comm y img.width, Nat.mul_add_div hw0]
    rw [Nat.div_eq_of_lt hx]
    rfl
  rw [hxw, hyw]
  simp [hy]

/-- C7 (amended): the adaptive transform sets a pixel white exactly when
its luminance exceeds `windowSum / ((x2-x1) * (y2-y1)) * (1 - threshold)`,
where the divisor is the product of the clamped window's side *extents* —
one less than its pixel counts per axis (so the comparison value is not the
window's mean luminance) — and the window sum, assembled from the
2D-prefix-sum integral image, equals the direct double sum over the clamped
window.  The dimension bounds keep the extents positive, the regime in
which the exact-rational model coincides with the float code. -/
theorem C7_adaptive_binarization (img : Img) (windowSize : Nat) (threshold : ℚ) (x y : Nat)
    (hwf : img.data.length = 4 * img.width * img.height)
    (hx : x < img.width) (hy : y < img.height)
    (hw : 2 ≤ img.width) (hh : 2 ≤ img.height) :
    ((adaptive img windowSize threshold).data.getD ((y * img.width + x) * 4) 0 = 255 ↔
      lum img x y >
        rectSum img (winLo x (windowSize / 2)) (winHi img.width x (windowSize / 2))
            (winLo y (windowSize / 2)) (winHi img.height y (windowSize / 2))
          / (((winHi img.width x (windowSize / 2) - winLo x (windowSize / 2))
              * (winHi img.height y (windowSize / 2) - winLo y (windowSize / 2)) : Nat) : ℚ)
          * (1 - threshold))
    ∧ windowSumCode img (winLo x (windowSize / 2)) (winHi img.width x (windowSize / 2))
        (winLo y (windowSize / 2)) (winHi img.height y (windowSize / 2))
      = rectSum img (winLo x (windowSize / 2)) (winHi img.width x (windowSize / 2))
          (winLo y (windowSize / 2)) (winHi img.height y (windowSize / 2)) := by
  have hx1 : winLo x (windowSize / 2) ≤ winHi img.width x (windowSize / 2) + 1 := by
    unfold winLo winHi
    omega
  have hy1 : winLo y (windowSize / 2) ≤ winHi img.height y (windowSize / 2) + 1 := by
    unfold winLo winHi
    omega
  have hsum := windowSumCode_eq_rectSum img hx1 hy1
  constructor
  · rw [adaptive_getD img windowSize threshold x y hwf hx hy]
    simp only [adaptiveValue]
    rw [hsum]
    by_cases hcond : lum img x y >
        rectSum img (winLo x (windowSize / 2)) (winHi img.width x (windowSize / 2))
            (winLo y (windowSize / 2)) (winHi img.height y (windowSize / 2))
          / (((winHi img.width x (windowSize / 2) - winLo x (windowSize / 2))
              * (winHi img.height y (windowSize / 2) - winLo y (windowSize / 2)) : Nat) : ℚ)
          * (1 - threshold)
    · simp [hcond]
    · simp [hcond]
  · exact hsum

/-- The 3×3 all-gray (value 100) test buffer. -/
def uniform3 : Img := ⟨3, 3, List.replicate 36 100⟩

theorem C7_adaptive_binarization_witness :
    (uniform3.data.length = 4 * uniform3.width * uniform3.height
      ∧ 1 < uniform3.width ∧ 1 < uniform3.height ∧ 2 ≤ uniform3.width ∧ 2 ≤ uniform3.height)
    ∧ (((adaptive uniform3 15 (3 / 20)).data.getD ((1 * uniform3.width + 1) * 4) 0 = 255 ↔
        lum uniform3 1 1 >
          rectSum uniform3 (winLo 1 (15 / 2)) (winHi uniform3.width 1 (15 / 2))
              (winLo 1 (15 / 2)) (winHi uniform3.height 1 (15 / 2))
            / (((winHi uniform3.width 1 (15 / 2) - winLo 1 (15 / 2))
                * (winHi uniform3.height 1 (15 / 2) - winLo 1 (15 / 2)) : Nat) : ℚ)
            * (1 - 3 / 20))
      ∧ windowSumCode uniform3 (winLo 1 (15 / 2)) (winHi uniform3.width 1 (15 / 2))
          (winLo 1 (15 / 2)) (winHi uniform3.height 1 (15 / 2))
        = rectSum uniform3 (winLo 1 (15 / 2)) (winHi uniform3.width 1 (15 / 2))
            (winLo 1 (15 / 2)) (winHi uniform3.height 1 (15 / 2))) :=
  ⟨⟨by decide, by decide, by decide, by decide, by decide⟩,
   C7_adaptive_binarization uniform3 15 (3 / 20) 1 1 (by decide) (by decide) (by decide)
     (by decide) (by decide)⟩

theorem lum_uniform3 : ∀ x y : Nat, x < 3 → y < 3 → lum uniform3 x y = 100 := by
  intro x y hx hy
  have hget : ∀ k : Nat, k < 36 → uniform3.data.getD k 0 = 100 := by
    intro k hk
    show (List.replicate 36 100).getD k 0 = 100
    rw [List.getD_eq_getElem?_getD, List.getElem?_replicate_of_lt hk]
    rfl
  have hidx : (y * uniform3.width + x) * 4 + 2 < 36 := by
    show (y * 3 + x) * 4 + 2 < 36
    omega
  simp only [lum]
  rw [hget _ (by omega), hget _ (by omega), hget _ (by omega)]
  norm_num

theorem rectSum_uniform3 : rectSum uniform3 0 2 0 2 = 900 := by
  unfold rectSum
  have hrow : ∀ j ∈ Finset.Ico 0 (2 + 1), (∑ i ∈ Finset.Ico 0 (2 + 1), lum uniform3 i j)
      = 300 := by
    intro j hj
    have hj3 : j < 3 := by simpa using (Finset.mem_Ico.mp hj).2
    have hcell : ∀ i ∈ Finset.Ico 0 (2 + 1), lum uniform3 i j = 100 := by
      intro i hi
      exact lum_uniform3 i j (by simpa using (Finset.mem_Ico.mp hi).2) hj3
    rw [Finset.sum_congr rfl hcell]
    simp
    norm_num
  rw [Finset.sum_congr rfl hrow]
  simp
  norm_num

/-- C7 (counterexample): on the uniform 3×3 gray buffer, the adaptive
transform at the default parameters leaves the center pixel black (the
code's comparison value is `900 / 4 · 0.85 = 191.25`), although the pixel's
luminance (100) exceeds the window's mean luminance (100) times the
sensitivity factor (85) — so the output is not "white exactly when
luminance exceeds the local window mean times 0.85" as claimed. -/
theorem C7_counterexample :
    (adaptive uniform3 15 (3 / 20)).data.getD ((1 * uniform3.width + 1) * 4) 0 = 0
    ∧ lum uniform3 1 1 > specLocalMean uniform3 15 1 1 * (1 - 3 / 20)
    ∧ ¬ ((adaptive uniform3 15 (3 / 20)).data.getD ((1 * uniform3.width + 1) * 4) 0 = 255 ↔
        lum uniform3 1 1 > specLocalMean uniform3 15 1 1 * (1 - 3 / 20)) := by
  have hlo : winLo 1 (15 / 2) = 0 := by decide
  have hhiw : winHi uniform3.width 1 (15 / 2) = 2 := by decide
  have hhih : winHi uniform3.height 1 (15 / 2) = 2 := by decide
  have hlum : lum uniform3 1 1 = 100 := lum_uniform3 1 1 (by omega) (by omega)
  have hmean : specLocalMean uniform3 15 1 1 = 100 := by
    simp only [specLocalMean]
    rw [hlo, hhiw, hhih, rectSum_uniform3]
    norm_num
  have hval : adaptiveValue uniform3 15 (3 / 20) 1 1 = 0 := by
    simp only [adaptiveValue]
    rw [hlo, hhiw, hhih]
    rw [windowSumCode_eq_rectSum uniform3 (by omega) (by omega), rectSum_uniform3, hlum]
    norm_num
  have hout : (adaptive uniform3 15 (3 / 20)).data.getD ((1 * uniform3.width + 1) * 4) 0 = 0 := by
    rw [adaptive_getD uniform3 15 (3 / 20) 1 1 (by decide) (by decide) (by decide)]
    exact hval
  have hexceeds : lum uniform3 1 1 > specLocalMean uniform3 15 1 1 * (1 - 3 / 20) := by
    rw [hlum, hmean]
    norm_num
  refine ⟨hout, hexceeds, fun hiff => ?_⟩
  have h255 := hiff.mpr hexceeds
  rw [hout] at h255
  exact absurd h255 (by norm_num)

/-! ### C1: no short-circuit for small buffers -/

theorem scanAndClearGo_noHit (env : Env) (hdec : ∀ i, env.decode i = none)
    (w h : Nat) : ∀ fuel c, 0 < fuel → scanAndClearGo env w h fuel c = ([], c, 1) := by
  intro fuel c hf
  cases fuel with
  | zero => omega
  | succ n => simp [scanAndClearGo, hdec]

theorem tryFirstHit_noHit {α : Type} (attempt : α → List String × Nat)
    (hA : ∀ a, (attempt a).1 = []) :
    ∀ l, (tryFirstHit attempt l).1 = [] := by
  intro l
  induction l with
  | nil => rfl
  | cons a rest ih => simp [tryFirstHit, hA a, ih]

theorem tryFirstHitSt_noHit {α : Type} (attempt : Img → α → List String × Img × Nat)
    (hA : ∀ c a, (attempt c a).1 = [] ∧ (attempt c a).2.2 = 1) :
    ∀ (l : List α) (c : Img),
      (tryFirstHitSt attempt l c).1 = [] ∧ (tryFirstHitSt attempt l c).2.2 = l.length := by
  intro l
  induction l with
  | nil => intro c; exact ⟨rfl, rfl⟩
  | cons a rest ih =>
    intro c
    have h1 := (hA c a).1
    have h2 := (hA c a).2
    have ih1 := (ih ((attempt c a).2.1)).1
    have ih2 := (ih ((attempt c a).2.1)).2
    simp only [tryFirstHitSt, h1, List.isEmpty_nil, if_true]
    exact ⟨ih1, by rw [h2, ih2, List.length_cons]; omega⟩

theorem accumAllGo_noHit {α : Type} (attempt : α → List String × Nat)
    (hA : ∀ a, (attempt a).1 = []) :
    ∀ (l : List α) (found : List String) (n : Nat),
      (accumAllGo attempt l found n).1 = found := by
  intro l
  induction l with
  | nil => intro found n; rfl
  | cons a rest ih =>
    intro found n
    simp [accumAllGo, hA a, ih]

theorem multiScale_noHit (env : Env) (hdec : ∀ i, env.decode i = none) (c : Img) :
    (multiScale env c).1 = [] ∧ (multiScale env c).2.1 = c := by
  refine ⟨?_, rfl⟩
  show (tryFirstHit _ msScales).1 = []
  apply tryFirstHit_noHit
  intro a
  unfold msAttempt
  by_cases hsk : floorNatQ ((c.width : ℚ) * a) < 50 ∨ floorNatQ ((c.height : ℚ) * a) < 50
  · simp [hsk]
  · simp only [hsk, if_false]
    show (scanAndClearLoop env _ _ _).1 = []
    unfold scanAndClearLoop
    rw [scanAndClearGo_noHit env hdec _ _ 10 _ (by norm_num)]

theorem enhancedPreprocessing_noHit (env : Env) (hdec : ∀ i, env.decode i = none) (c : Img) :
    (enhancedPreprocessing env c).1 = [] ∧ (enhancedPreprocessing env c).2.2 = 5 := by
  unfold enhancedPreprocessing
  have h := tryFirstHitSt_noHit
    (fun cv pstep => scanAndClearLoop env (putImageData cv (pstep (getImageDataRect c c.width c.height))) c.width c.height)
    (by
      intro cv a
      simp only []
      unfold scanAndClearLoop
      rw [scanAndClearGo_noHit env hdec _ _ 10 _ (by norm_num)]
      exact ⟨rfl, rfl⟩)
    (preprocessingSteps env) c
  exact ⟨h.1, h.2⟩

theorem advancedBinarization_noHit (env : Env) (hdec : ∀ i, env.decode i = none) (c : Img) :
    (advancedBinarization env c).1 = [] ∧ (advancedBinarization env c).2.2 = 7 := by
  unfold advancedBinarization
  have h := tryFirstHitSt_noHit
    (fun cv bm => scanAndClearLoop env (putImageData cv (bm (getImageDataRect c c.width c.height))) c.width c.height)
    (by
      intro cv a
      simp only []
      unfold scanAndClearLoop
      rw [scanAndClearGo_noHit env hdec _ _ 10 _ (by norm_num)]
      exact ⟨rfl, rfl⟩)
    binarizationMethods c
  exact ⟨h.1, h.2⟩

theorem regionBasedScanning_noHit (env : Env) (hdec : ∀ i, env.decode i = none) (c : Img) :
    (regionBasedScanning env c).1 = [] ∧ (regionBasedScanning env c).2.1 = c := by
  refine ⟨?_, rfl⟩
  show (accumAllGo _ _ [] 0).1 = []
  apply accumAllGo_noHit
  intro pos
  simp only [regionAttempt]
  split
  · rfl
  · show (scanAndClearLoop env _ _ _).1 = []
    unfold scanAndClearLoop
    rw [scanAndClearGo_noHit env hdec _ _ 10 _ (by norm_num)]

theorem findAll_noHit (env : Env) (hdec : ∀ i, env.decode i = none) (img : Img)
    (pageNum : Nat) :
    findAllQrCodesInImageData env img pageNum = []
    ∧ 12 ≤ findAllDecodeCalls env img := by
  simp only [findAllQrCodesInImageData, findAllDecodeCalls, findAllFrom]
  constructor
  · rw [(multiScale_noHit env hdec _).1, (enhancedPreprocessing_noHit env hdec _).1,
      (advancedBinarization_noHit env hdec _).1, (regionBasedScanning_noHit env hdec _).1]
    rfl
  · rw [(enhancedPreprocessing_noHit env hdec _).2, (advancedBinarization_noHit env hdec _).2]
    omega

/-- C1 (amended): sub-50-pixel buffers are *not* short-circuited — the
detection orchestrator still invokes all four strategies, and the decode
primitive itself is consulted (at least 12 times: once per preprocessing
stage and per binarization method); the sub-50 guard lives inside the
multi-scale strategy's scale loop only.  When the decoder finds no code in
any derived buffer — as for buffers too small to contain a QR symbol — the
result is empty and a file task completes with the no-QR-found status
rather than throwing. -/
theorem C1_small_buffer (env : Env) (img : Img) (pageNum : Nat) (file : FileModel)
    (hdec : ∀ i, env.decode i = none)
    (hsmall : img.width < 50 ∨ img.height < 50) :
    findAllQrCodesInImageData env img pageNum = []
    ∧ 12 ≤ findAllDecodeCalls env img
    ∧ (processFile env file).status = FStatus.no_qr_found := by
  refine ⟨(findAll_noHit env hdec img pageNum).1, (findAll_noHit env hdec img pageNum).2, ?_⟩
  have hdq : decodeQrFromImage env file = [] := by
    unfold decodeQrFromImage decodeBody
    cases hb : file.bitmap with
    | error e => rfl
    | ok bmp =>
      by_cases hctx : file.ctxOk
      · simp only [hctx, if_true]
        exact (findAll_noHit env hdec _ 1).1
      · simp [hctx]
  rw [(C10_processFile_never_errors env file).1, hdq]
  rfl

theorem C1_small_buffer_witness :
    (∀ i, (Env.mk (fun _ => none) (fun c _ => c) (fun i _ _ => i) (fun i _ _ _ _ => i)
        id id id id).decode i = none)
    ∧ ((Img.mk 1 1 [0, 0, 0, 0]).width < 50 ∨ (Img.mk 1 1 [0, 0, 0, 0]).height < 50)
    ∧ (findAllQrCodesInImageData (Env.mk (fun _ => none) (fun c _ => c) (fun i _ _ => i)
          (fun i _ _ _ _ => i) id id id id) (Img.mk 1 1 [0, 0, 0, 0]) 1 = []
        ∧ 12 ≤ findAllDecodeCalls (Env.mk (fun _ => none) (fun c _ => c) (fun i _ _ => i)
            (fun i _ _ _ _ => i) id id id id) (Img.mk 1 1 [0, 0, 0, 0])
        ∧ (processFile (Env.mk (fun _ => none) (fun c _ => c) (fun i _ _ => i)
            (fun i _ _ _ _ => i) id id id id)
            (FileModel.mk "tiny.png" (Except.ok (Img.mk 1 1 [0, 0, 0, 0])) true)).status
          = FStatus.no_qr_found) :=
  ⟨fun _ => rfl, Or.inl (by decide),
   C1_small_buffer (Env.mk (fun _ => none) (fun c _ => c) (fun i _ _ => i)
      (fun i _ _ _ _ => i) id id id id) (Img.mk 1 1 [0, 0, 0, 0]) 1
      (FileModel.mk "tiny.png" (Except.ok (Img.mk 1 1 [0, 0, 0, 0])) true)
      (fun _ => rfl) (Or.inl (by decide))⟩

/-- C1 (counterexample): a 1×1 buffer — both dimensions below 50 — run
against a decode oracle that never finds a code still registers decode
invocations, refuting "returns an empty result without invoking any of the
four strategies": the strategies run and consult the decoder. -/
theorem C1_counterexample :
    (Img.mk 1 1 [0, 0, 0, 0]).width < 50
    ∧ findAllQrCodesInImageData (Env.mk (fun _ => none) (fun c _ => c) (fun i _ _ => i)
        (fun i _ _ _ _ => i) id id id id) (Img.mk 1 1 [0, 0, 0, 0]) 1 = []
    ∧ findAllDecodeCalls (Env.mk (fun _ => none) (fun c _ => c) (fun i _ _ => i)
        (fun i _ _ _ _ => i) id id id id) (Img.mk 1 1 [0, 0, 0, 0]) ≠ 0 := by
  have h := findAll_noHit (Env.mk (fun _ => none) (fun c _ => c) (fun i _ _ => i)
      (fun i _ _ _ _ => i) id id id id) (fun _ => rfl) (Img.mk 1 1 [0, 0, 0, 0]) 1
  exact ⟨by decide, h.1, by omega⟩

/-! ### C9: detection is a function of the input buffer alone -/

theorem putImageData_self (c img : Img) (hw : c.width = img.width)
    (hh : c.height = img.height) (hcl : c.data.length = 4 * c.width * c.height)
    (hil : img.data.length = 4 * img.width * img.height) :
    putImageData c img = img := by
  cases c with
  | mk cw ch cdata =>
    cases img with
    | mk iw ih idata =>
      simp only at hw hh hcl hil
      subst hw
      subst hh
      unfold putImageData
      simp only
      have hlen : cdata.length = idata.length := by omega
      congr 1
      apply List.ext_getElem
      · simp [hlen]
      · intro i h1 h2
        have hi : i < cdata.length := by simpa using h1
        have hiw : 0 < cw := by
          rcases Nat.eq_zero_or_pos cw with h0 | h0
          · rw [h0] at hcl
            omega
          · exact h0
        have hlt : i < 4 * cw * ch := by omega
        rw [List.getElem_map, List.getElem_range]
        have hxw : i / 4 % cw < cw := Nat.mod_lt _ hiw
        have hyh : i / 4 / cw < ch := by
          have h14 : i / 4 < cw * ch := by
            have h0 : i < 4 * (cw * ch) := by
              calc i < 4 * cw * ch := hlt
                _ = 4 * (cw * ch) := Nat.mul_assoc 4 cw ch
            omega
          exact Nat.div_lt_of_lt_mul h14
        rw [if_pos ⟨hxw, hyh⟩]
        have harith : (i / 4 / cw * cw + i / 4 % cw) * 4 + i % 4 = i := by
          have hdm : cw * (i / 4 / cw) + i / 4 % cw = i / 4 := Nat.div_add_mod _ _
          have heq : i / 4 / cw * cw + i / 4 % cw = i / 4 := by
            rw [Nat.mul_comm]
            exact hdm
          rw [heq]
          omega
        rw [harith]
        rw [List.getD_eq_getElem idata 0 (by omega)]

theorem blankCanvas_wf (w h : Nat) : (blankCanvas w h).data.length
    = 4 * (blankCanvas w h).width * (blankCanvas w h).height := by
  simp [blankCanvas]

/-- C9: the detection orchestrator's result set is a function of the input
buffer alone — starting from any initial canvas of matching dimensions
(e.g. one still carrying the pixels the strategies painted during an
earlier run) yields the same merged result as the fresh-canvas run,
because `putImageData` of the full-size input overwrites every sample.
Hence re-running detection on the untouched original buffer is idempotent,
although the strategies mutate the shared working canvas internally. -/
theorem C9_detect_state_independent (env : Env) (img : Img) (pageNum : Nat) (c0 : Img)
    (h1 : c0.width = img.width) (h2 : c0.height = img.height)
    (h3 : c0.data.length = 4 * c0.width * c0.height)
    (h4 : img.data.length = 4 * img.width * img.height) :
    (findAllFrom c0 env img pageNum).1 = findAllQrCodesInImageData env img pageNum := by
  unfold findAllQrCodesInImageData
  have e1 : putImageData c0 img = img := putImageData_self c0 img h1 h2 h3 h4
  have e2 : putImageData (blankCanvas img.width img.height) img = img :=
    putImageData_self _ img rfl rfl (blankCanvas_wf _ _) h4
  unfold findAllFrom
  rw [e1, e2]

theorem C9_detect_state_independent_witness :
    ((Img.mk 1 1 [255, 255, 255, 255]).width = (Img.mk 1 1 [0, 0, 0, 0]).width
      ∧ (Img.mk 1 1 [255, 255, 255, 255]).height = (Img.mk 1 1 [0, 0, 0, 0]).height
      ∧ (Img.mk 1 1 [255, 255, 255, 255]).data.length
          = 4 * (Img.mk 1 1 [255, 255, 255, 255]).width * (Img.mk 1 1 [255, 255, 255, 255]).height
      ∧ (Img.mk 1 1 [0, 0, 0, 0]).data.length
          = 4 * (Img.mk 1 1 [0, 0, 0, 0]).width * (Img.mk 1 1 [0, 0, 0, 0]).height)
    ∧ (findAllFrom (Img.mk 1 1 [255, 255, 255, 255])
        (Env.mk (fun _ => none) (fun c _ => c) (fun i _ _ => i) (fun i _ _ _ _ => i)
          id id id id) (Img.mk 1 1 [0, 0, 0, 0]) 1).1
      = findAllQrCodesInImageData
          (Env.mk (fun _ => none) (fun c _ => c) (fun i _ _ => i) (fun i _ _ _ _ => i)
            id id id id) (Img.mk 1 1 [0, 0, 0, 0]) 1 :=
  ⟨⟨rfl, rfl, by decide, by decide⟩,
   C9_detect_state_independent
     (Env.mk (fun _ => none) (fun c _ => c) (fun i _ _ => i) (fun i _ _ _ _ => i)
       id id id id) (Img.mk 1 1 [0, 0, 0, 0]) 1 (Img.mk 1 1 [255, 255, 255, 255])
     rfl rfl (by decide) (by decide)⟩

theorem C5_merge_policy_witness :
    ((∃ qr ∈ mergeResults [Except.ok ["A", "B"], Except.error "boom",
        Except.ok ["B", "C"]] 7, qr.data = "C") ↔
      (∃ l, Except.ok l ∈ [Except.ok ["A", "B"], Except.error "boom",
        Except.ok ["B", "C"]] ∧ "C" ∈ l))
    ∧ ((mergeResults [Except.ok ["A", "B"], Except.error "boom",
        Except.ok ["B", "C"]] 7).map DecodedQR.data).Nodup :=
  ⟨(C5_merge_policy [Except.ok ["A", "B"], Except.error "boom",
      Except.ok ["B", "C"]] 7).1 "C",
   (C5_merge_policy [Except.ok ["A", "B"], Except.error "boom",
      Except.ok ["B", "C"]] 7).2.1⟩

theorem C10_processFile_never_errors_witness :
    ((FileModel.mk "bad.png" (Except.error "decode failed") true).bitmap
        = Except.error "decode failed")
    ∧ decodeQrFromImage
        (Env.mk (fun _ => none) (fun c _ => c) (fun i _ _ => i) (fun i _ _ _ _ => i)
          id id id id)
        (FileModel.mk "bad.png" (Except.error "decode failed") true) = []
    ∧ (processFile
        (Env.mk (fun _ => none) (fun c _ => c) (fun i _ _ => i) (fun i _ _ _ _ => i)
          id id id id)
        (FileModel.mk "bad.png" (Except.error "decode failed") true)).status
      ≠ FStatus.error :=
  ⟨rfl,
   (C10_processFile_never_errors
     (Env.mk (fun _ => none) (fun c _ => c) (fun i _ _ => i) (fun i _ _ _ _ => i)
       id id id id)
     (FileModel.mk "bad.png" (Except.error "decode failed") true)).2.2
     "decode failed" rfl,
   (C10_processFile_never_errors
     (Env.mk (fun _ => none) (fun c _ => c) (fun i _ _ => i) (fun i _ _ _ _ => i)
       id id id id)
     (FileModel.mk "bad.png" (Except.error "decode failed") true)).2.1⟩
